import Mathlib

/-!
Shallow embedding of `src/api/typings.ts` (a dependency-typings resolution
endpoint) and verification of its specification claims.

JavaScript strings are modelled as lists of Unicode scalar values
(`List Char`); `jsLength` counts UTF-16 code units, matching the JavaScript
`.length` that the source uses for size accounting.  File mappings
(JavaScript objects) are modelled as insertion-ordered association lists.
-/

namespace TypeFetcher

abbrev Str := List Char

def str (s : String) : Str := s.data

/-- UTF-16 length of a JS string, i.e. JS `.length` (astral characters count
as two code units). -/
def jsLength (l : Str) : Nat :=
  (l.map (fun c => if c.toNat < 0x10000 then 1 else 2)).sum

/-- JS `String.prototype.split` with a one-character separator. -/
def jsSplit (sep : Char) : Str → List Str
  | [] => [[]]
  | c :: rest =>
    if c = sep then [] :: jsSplit sep rest
    else
      match jsSplit sep rest with
      | [] => [[c]]
      | g :: gs => (c :: g) :: gs

/-- JS `String.prototype.replace` with a plain-string pattern: replaces only
the leftmost occurrence (and `s.replace("", r)` prepends `r`). -/
def replaceFirst : Str → Str → Str → Str
  | [], pat, repl => if pat = [] then repl else []
  | c :: rest, pat, repl =>
    if pat.isPrefixOf (c :: rest) then repl ++ (c :: rest).drop pat.length
    else c :: replaceFirst rest pat repl

/-- JS object property assignment `o[k] = v` on an insertion-ordered object:
overwrite in place when the key exists, otherwise append. -/
def objSet (m : List (Str × Str)) (k : Str) (v : Str) : List (Str × Str) :=
  if m.any (fun e => e.1 == k) then
    m.map (fun e => if e.1 == k then (k, v) else e)
  else m ++ [(k, v)]

/-- JS object property read `o[k]`.  Every call site in the source reads a
key that is present (keys are drawn from `Object.keys`), so the default is
never reached there. -/
def objGetD (m : List (Str × Str)) (k : Str) : Str :=
  ((m.find? (fun e => e.1 == k)).map (fun e => e.2)).getD []

/-- JS `hay.indexOf(needle) > -1`: substring containment. -/
def strInfixOf (needle : Str) : Str → Bool
  | [] => needle.isPrefixOf []
  | c :: rest => needle.isPrefixOf (c :: rest) || strInfixOf needle rest

/-- Value of a hexadecimal digit character. -/
def hexVal (c : Char) : Option Nat :=
  if '0' ≤ c ∧ c ≤ '9' then some (c.toNat - '0'.toNat)
  else if 'a' ≤ c ∧ c ≤ 'f' then some (c.toNat - 'a'.toNat + 10)
  else if 'A' ≤ c ∧ c ≤ 'F' then some (c.toNat - 'A'.toNat + 10)
  else none

/-- One `%XX` escape at the head of the input, as a byte. -/
def pctByte : Str → Option (Nat × Str)
  | '%' :: h1 :: h2 :: rest =>
    match hexVal h1, hexVal h2 with
    | some a, some b => some (16 * a + b, rest)
    | _, _ => none
  | _ => none

/-- Reads `n` UTF-8 continuation bytes, each written as a `%XX` escape. -/
def contBytes : Nat → Str → Option (List Nat × Str)
  | 0, l => some ([], l)
  | n + 1, l =>
    match pctByte l with
    | some (b, l2) =>
      if 0x80 ≤ b ∧ b < 0xC0 then
        match contBytes n l2 with
        | some (bs, l3) => some (b :: bs, l3)
        | none => none
      else none
    | none => none

/-- A Unicode scalar value as a `Char`; fails on surrogates and
out-of-range values (those make `decodeURIComponent` throw). -/
def mkChar (v : Nat) : Option Char :=
  if v < 0xD800 ∨ (0xDFFF < v ∧ v < 0x110000) then some (Char.ofNat v) else none

/-- Decode one percent-escaped UTF-8 sequence at the head of the input,
following the ECMAScript `Decode` algorithm (overlong encodings, stray
continuation bytes, surrogates and out-of-range values all throw). -/
def pctDecodeOne (l : Str) : Option (Char × Str) :=
  match pctByte l with
  | none => none
  | some (b0, l1) =>
    if b0 < 0x80 then some (Char.ofNat b0, l1)
    else if b0 < 0xC2 then none
    else if b0 < 0xE0 then
      match contBytes 1 l1 with
      | some ([b1], l2) => (mkChar ((b0 - 0xC0) * 0x40 + (b1 - 0x80))).map (fun c => (c, l2))
      | _ => none
    else if b0 < 0xF0 then
      match contBytes 2 l1 with
      | some ([b1, b2], l2) =>
        let v := (b0 - 0xE0) * 0x1000 + (b1 - 0x80) * 0x40 + (b2 - 0x80)
        if v < 0x800 then none else (mkChar v).map (fun c => (c, l2))
      | _ => none
    else if b0 < 0xF5 then
      match contBytes 3 l1 with
      | some ([b1, b2, b3], l2) =>
        let v := (b0 - 0xF0) * 0x40000 + (b1 - 0x80) * 0x1000 + (b2 - 0x80) * 0x40 + (b3 - 0x80)
        if v < 0x10000 ∨ 0x10FFFF < v then none else (mkChar v).map (fun c => (c, l2))
      | _ => none
    else none

/-- Fuel-driven loop of `decodeURIComponent`; the fuel is the input length,
which bounds the number of produced characters. -/
def decodeURIComponentAux : Nat → Str → Option Str
  | _, [] => some []
  | 0, _ :: _ => none
  | fuel + 1, '%' :: rest =>
    match pctDecodeOne ('%' :: rest) with
    | some (c, l2) =>
      match decodeURIComponentAux fuel l2 with
      | some tail => some (c :: tail)
      | none => none
    | none => none
  | fuel + 1, c :: rest =>
    match decodeURIComponentAux fuel rest with
    | some tail => some (c :: tail)
    | none => none

/-- JS `decodeURIComponent`; `none` models a thrown `URIError`. -/
def decodeURIComponent (l : Str) : Option Str :=
  decodeURIComponentAux l.length l

/-- Line terminators, which the JS regex `.` does not match. -/
def isLineTerm (c : Char) : Bool :=
  c = '\n' || c = '\r' || c = '\u2028' || c = '\u2029'

/-- Scan for the first `@` (the regex allows any position of the remainder,
the wrapper below excludes position 0) and delete from it up to the end of
the line, leaving the rest: this is `replace` with one match, no `g` flag. -/
def removeVersionAux : Str → Str
  | [] => []
  | c :: rest =>
    if c = '@' then rest.dropWhile (fun d => !isLineTerm d)
    else c :: removeVersionAux rest

/-- Model of `const removeVersion = (depQuery) => depQuery.replace(re, "")` where `re`
matches an `@` not at position 0 followed by `.*`. -/
def removeVersion : Str → Str
  | [] => []
  | c :: rest => c :: removeVersionAux rest

/-- JS template interpolation of a possibly-undefined value: `undefined`
prints as the literal text `undefined`. -/
def jsUndef (o : Option Str) : Str := o.getD (str "undefined")

/-- Model of `function getDependencyName(path)` from the source: splits the
version-stripped query on `/`, shifts the first segment (plus the scope
segment when the query starts with `@`, plus a following segment that starts
with a digit).  Shifting an exhausted array yields `undefined`, which string
interpolation renders as the text `undefined`.  The final JS `|| ""` is the
identity here because the first shift always yields a string. -/
def getDependencyName (p : Str) : Str :=
  let dependencyParts := jsSplit '/' (removeVersion p)
  let dependencyName := jsUndef dependencyParts.head?
  let rest1 := dependencyParts.tail
  let afterScope :=
    if (str "@").isPrefixOf p then
      (dependencyName ++ '/' :: jsUndef rest1.head?, rest1.tail)
    else (dependencyName, rest1)
  match afterScope.2.head? with
  | some seg =>
    if (match seg.head? with | some d => d.isDigit | none => false) then
      afterScope.1 ++ '/' :: seg
    else afterScope.1
  | none => afterScope.1

/-- Model of `function getDependencyAndVersion(depString)` from the source.  `none`
models a `URIError` thrown by `decodeURIComponent`. -/
def getDependencyAndVersion (depString : Str) : Option (Str × Str) :=
  if ((str "@").isPrefixOf depString ∧ (jsSplit '@' depString).length = 2)
      ∨ (jsSplit '@' depString).length = 1 then
    some (depString, str "latest")
  else
    let dependency := getDependencyName depString
    (decodeURIComponent (replaceFirst depString (dependency ++ ['@']) [])).map
      (fun version => (dependency, version))

/-- Source constant `TYPE_ONLY_DIRECTORIES = ["src"]`. -/
def TYPE_ONLY_DIRECTORIES : List Str := [str "src"]

/-- Model of `function isFileValid(path)` from the source: under a type-only directory
only `.d.ts` passes, otherwise `.ts`; a path ending in `package.json` always
passes. -/
def isFileValid (path : Str) : Bool :=
  let isTypeOnly :=
    TYPE_ONLY_DIRECTORIES.any (fun dir => strInfixOf ('/' :: dir ++ ['/']) path)
  let requiredEnding := if isTypeOnly then str ".d.ts" else str ".ts"
  if requiredEnding.isSuffixOf path then true
  else if (str "package.json").isSuffixOf path then true
  else false

/-! ### A model of `JSON.parse`

The source calls the JavaScript built-in `JSON.parse` and reads the
`typings` / `types` properties of the result.  The built-in is modelled by a
fuel-driven recursive-descent parser of the JSON grammar.  Numbers are kept
exact as rationals (JS doubles only matter for truthiness here); a lone
surrogate written with a `\u` escape is modelled as `U+FFFD` (Lean characters
are scalar values; only emptiness of strings matters downstream). -/

inductive JSValue where
  | jnull : JSValue
  | jbool (b : Bool) : JSValue
  | jnum (q : ℚ) : JSValue
  | jstr (s : Str) : JSValue
  | jarr (elems : List JSValue) : JSValue
  | jobj (fields : List (Str × JSValue)) : JSValue

/-- JSON insignificant whitespace. -/
def jsonWsChar (c : Char) : Bool := c = ' ' || c = '\t' || c = '\n' || c = '\r'

def digitsToNat (ds : List Char) : Nat :=
  ds.foldl (fun a c => 10 * a + (c.toNat - '0'.toNat)) 0

/-- A nonempty run of decimal digits. -/
def parseDigits (l : Str) : Option (List Char × Str) :=
  let ds := l.takeWhile Char.isDigit
  if ds = [] then none else some (ds, l.drop ds.length)

/-- Optional fraction part of a JSON number. -/
def parseFrac : Str → Option (ℚ × Str)
  | '.' :: r =>
    (match parseDigits r with
     | some (ds, r2) => some ((digitsToNat ds : ℚ) / (10 : ℚ) ^ ds.length, r2)
     | none => none)
  | l => some (0, l)

/-- Optional exponent part of a JSON number. -/
def parseExp : Str → Option (ℤ × Str)
  | c :: r =>
    if c = 'e' ∨ c = 'E' then
      let sgn : ℤ × Str :=
        match r with
        | '+' :: r2 => (1, r2)
        | '-' :: r2 => (-1, r2)
        | _ => (1, r)
      match parseDigits sgn.2 with
      | some (ds, r2) => some (sgn.1 * (digitsToNat ds : ℤ), r2)
      | none => none
    else some (0, c :: r)
  | [] => some (0, [])

def parseNumTail (neg : Bool) (ip : Nat) (l : Str) : Option (ℚ × Str) :=
  match parseFrac l with
  | none => none
  | some (f, l2) =>
    match parseExp l2 with
    | none => none
    | some (e, l3) =>
      let mag := ((ip : ℚ) + f) * (10 : ℚ) ^ e
      some (if neg then -mag else mag, l3)

/-- A JSON number (optional minus, no leading zeros, optional fraction and
exponent). -/
def parseNumber (l : Str) : Option (ℚ × Str) :=
  let signSplit : Bool × Str := match l with | '-' :: rest => (true, rest) | _ => (false, l)
  match signSplit.2 with
  | '0' :: rest => parseNumTail signSplit.1 0 rest
  | c :: _ =>
    if c.isDigit then
      match parseDigits signSplit.2 with
      | some (ds, rest) => parseNumTail signSplit.1 (digitsToNat ds) rest
      | none => none
    else none
  | [] => none

/-- Four hexadecimal digits. -/
def parseHex4 : Str → Option (Nat × Str)
  | a :: b :: c :: d :: r =>
    (match hexVal a, hexVal b, hexVal c, hexVal d with
     | some x, some y, some z, some w => some (((x * 16 + y) * 16 + z) * 16 + w, r)
     | _, _, _, _ => none)
  | _ => none

/-- One escape sequence after a backslash inside a JSON string. -/
def parseEsc (r : Str) : Option (Char × Str) :=
  match r with
  | '"' :: r2 => some ('"', r2)
  | '\\' :: r2 => some ('\\', r2)
  | '/' :: r2 => some ('/', r2)
  | 'b' :: r2 => some (Char.ofNat 8, r2)
  | 'f' :: r2 => some (Char.ofNat 12, r2)
  | 'n' :: r2 => some ('\n', r2)
  | 'r' :: r2 => some ('\r', r2)
  | 't' :: r2 => some ('\t', r2)
  | 'u' :: r2 =>
    (match parseHex4 r2 with
     | some (cu, r3) =>
       if 0xD800 ≤ cu ∧ cu ≤ 0xDBFF then
         match r3 with
         | '\\' :: 'u' :: r4 =>
           (match parseHex4 r4 with
            | some (lo, r5) =>
              if 0xDC00 ≤ lo ∧ lo ≤ 0xDFFF then
                some (Char.ofNat (0x10000 + (cu - 0xD800) * 0x400 + (lo - 0xDC00)), r5)
              else some ('�', r3)
            | none => some ('�', r3))
         | _ => some ('�', r3)
       else if 0xDC00 ≤ cu ∧ cu ≤ 0xDFFF then some ('�', r3)
       else some (Char.ofNat cu, r3)
     | none => none)
  | _ => none

/-- Body of a JSON string after the opening quote; raw control characters are
rejected.  Fuel bounds the number of produced characters. -/
def parseStrBody : Nat → Str → Option (Str × Str)
  | _, '"' :: rest => some ([], rest)
  | 0, _ => none
  | fuel + 1, '\\' :: r =>
    (match parseEsc r with
     | some (c, r2) =>
       match parseStrBody fuel r2 with
       | some (s, r3) => some (c :: s, r3)
       | none => none
     | none => none)
  | fuel + 1, c :: r =>
    if c.toNat < 0x20 then none
    else
      match parseStrBody fuel r with
      | some (s, r2) => some (c :: s, r2)
      | none => none
  | _, [] => none

mutual

/-- A JSON value, preceded by optional whitespace. -/
def parseVal : Nat → Str → Option (JSValue × Str)
  | 0, _ => none
  | fuel + 1, l =>
    match l.dropWhile jsonWsChar with
    | 'n' :: 'u' :: 'l' :: 'l' :: r => some (.jnull, r)
    | 't' :: 'r' :: 'u' :: 'e' :: r => some (.jbool true, r)
    | 'f' :: 'a' :: 'l' :: 's' :: 'e' :: r => some (.jbool false, r)
    | '"' :: r =>
      (match parseStrBody r.length r with
       | some (s, r2) => some (.jstr s, r2)
       | none => none)
    | '\x7b' :: r =>
      (match r.dropWhile jsonWsChar with
       | '\x7d' :: r2 => some (.jobj [], r2)
       | r1 =>
         match parseMembers fuel r1 with
         | some (fs, r2) => some (.jobj fs, r2)
         | none => none)
    | '[' :: r =>
      (match r.dropWhile jsonWsChar with
       | ']' :: r2 => some (.jarr [], r2)
       | r1 =>
         match parseElems fuel r1 with
         | some (es, r2) => some (.jarr es, r2)
         | none => none)
    | l2 =>
      (match parseNumber l2 with
       | some (q, r) => some (.jnum q, r)
       | none => none)

/-- Members of a JSON object after the opening brace (at least one). -/
def parseMembers : Nat → Str → Option (List (Str × JSValue) × Str)
  | 0, _ => none
  | fuel + 1, l =>
    match l.dropWhile jsonWsChar with
    | '"' :: r =>
      (match parseStrBody r.length r with
       | some (k, r2) =>
         match r2.dropWhile jsonWsChar with
         | ':' :: r3 =>
           (match parseVal fuel r3 with
            | some (v, r4) =>
              (match r4.dropWhile jsonWsChar with
               | ',' :: r5 =>
                 (match parseMembers fuel r5 with
                  | some (fs, r6) => some ((k, v) :: fs, r6)
                  | none => none)
               | '\x7d' :: r5 => some ([(k, v)], r5)
               | _ => none)
            | none => none)
         | _ => none
       | none => none)
    | _ => none

/-- Elements of a JSON array after the opening bracket (at least one). -/
def parseElems : Nat → Str → Option (List JSValue × Str)
  | 0, _ => none
  | fuel + 1, l =>
    match parseVal fuel l with
    | some (v, r) =>
      (match r.dropWhile jsonWsChar with
       | ',' :: r2 =>
         (match parseElems fuel r2 with
          | some (es, r3) => some (v :: es, r3)
          | none => none)
       | ']' :: r2 => some ([v], r2)
       | _ => none)
    | none => none

end

/-- Model of `JSON.parse`: parse one value and require only whitespace after it.  The
fuel `2 * length + 4` dominates the recursion depth actually used: every
nested value consumes at least one input character before recursing. -/
def jsonParse (code : Str) : Option JSValue :=
  match parseVal (2 * code.length + 4) code with
  | some (v, rest) => if rest.dropWhile jsonWsChar = [] then some v else none
  | none => none

/-- JS property read `o.k` on a parsed JSON value: `none` is `undefined`.
With duplicate keys, the last occurrence wins (as in a JS object literal). -/
def getProp : JSValue → Str → Option JSValue
  | .jobj fields, k => ((fields.reverse).find? (fun e => e.1 == k)).map (fun e => e.2)
  | _, _ => none

/-- JS truthiness of a possibly-undefined JSON value. -/
def jsTruthy : Option JSValue → Bool
  | none => false
  | some .jnull => false
  | some (.jbool b) => b
  | some (.jnum q) => decide (q ≠ 0)
  | some (.jstr s) => decide (s ≠ [])
  | some (.jarr _) => true
  | some (.jobj _) => true

/-- The `try`-block of `cleanFiles`: `JSON.parse` the manifest and test
`parsed.typings || parsed.types`; a parse failure (caught exception) or a
falsy field yields `false` and control falls through. -/
def hasTypesFieldTruthy (code : Str) : Bool :=
  match jsonParse code with
  | some parsed =>
    jsTruthy (getProp parsed (str "typings")) || jsTruthy (getProp parsed (str "types"))
  | none => false

/-! ### Node `path.posix` helpers used by `cleanFiles` -/

/-- Segment normalization inside Node `path.posix.normalize`: drop empty and
`.` segments, resolve `..` against the stack (discarding it at the root of an
absolute path). -/
def normSegs (isAbs : Bool) (segs : List Str) : List Str :=
  (segs.foldl
    (fun acc seg =>
      if seg = [] ∨ seg = str "." then acc
      else if seg = str ".." then
        match acc with
        | s :: rest => if s = str ".." then seg :: s :: rest else rest
        | [] => if isAbs then [] else [seg]
      else seg :: acc)
    []).reverse

/-- Node `path.posix.normalize`. -/
def pathNormalize (p : Str) : Str :=
  if p = [] then str "." else
  let isAbs := (str "/").isPrefixOf p
  let trailing := p.getLast? = some '/'
  let core := List.intercalate (str "/") (normSegs isAbs (jsSplit '/' p))
  if core = [] then
    if isAbs then str "/" else if trailing then str "./" else str "."
  else
    (if isAbs then '/' :: core else core) ++ (if trailing then str "/" else [])

/-- Node `path.posix.join` restricted to two parts, as used by the source. -/
def pathJoin (a b : Str) : Str :=
  match (if a = [] then none else some a), (if b = [] then none else some b) with
  | none, none => str "."
  | some x, none => pathNormalize x
  | none, some y => pathNormalize y
  | some x, some y => pathNormalize (x ++ '/' :: y)

/-- Node `path.posix.dirname`: ignore trailing slashes, cut before the last
slash (the slash at position 0 is never a cut point). -/
def dirname (p : Str) : Str :=
  if p = [] then str "." else
  let hasRoot := (str "/").isPrefixOf p
  let rev2 := ((p.reverse).dropWhile (fun c => c = '/')).dropWhile (fun c => c ≠ '/')
  if rev2.length ≤ 1 then (if hasRoot then str "/" else str ".")
  else if hasRoot ∧ rev2.length = 2 then str "//"
  else p.take (rev2.length - 1)

/-! ### The typings filter `cleanFiles` -/

/-- Model of `function cleanFiles(files, rootPath)` from the source: keep every `.ts`
path, plus the `package.json` paths that survive the `validDependencies`
filter (the root manifest; a manifest with a truthy `typings` or `types`
field; a manifest such that some `.ts` path starts with the string
`path.dirname(manifest)`).  The result object is rebuilt by iterating
`Object.keys(files)` and assigning `newFiles[p] = files[p]`. -/
def cleanFiles (files : List (Str × Str)) (rootPath : Str) : List (Str × Str) :=
  let paths := files.map (fun e => e.1)
  let rootPkgJSON := pathJoin rootPath (str "package.json")
  let validDependencies := paths.filter (fun checkedPath =>
    if checkedPath == rootPkgJSON then true
    else if (str "/package.json").isSuffixOf checkedPath then
      (if hasTypesFieldTruthy (objGetD files checkedPath) then true
       else paths.any (fun p =>
         (dirname checkedPath).isPrefixOf p && (str ".ts").isSuffixOf p))
    else false)
  paths.foldl
    (fun newFiles p =>
      if (str ".ts").isSuffixOf p || validDependencies.contains p then
        objSet newFiles p (objGetD files p)
      else newFiles)
    []

/-- The retention rule of `cleanFiles`, written as a predicate on one path of
the mapping (used to characterize `cleanFiles` as a filter): a `.ts` path;
the root manifest `join(rootPath, "package.json")`; or another path ending in
`/package.json` whose content has a truthy `typings` or `types` field or such
that some `.ts` path of the mapping extends the string `dirname` of the
manifest. -/
def retainSpec (files : List (Str × Str)) (rootPath : Str) (p : Str) : Bool :=
  (str ".ts").isSuffixOf p
  || p == pathJoin rootPath (str "package.json")
  || ((str "/package.json").isSuffixOf p
      && (hasTypesFieldTruthy (objGetD files p)
          || files.any (fun q =>
            (dirname p).isPrefixOf q.1 && (str ".ts").isSuffixOf q.1)))

/-! ### `JSON.stringify` of the response envelopes

The serialized text is produced explicitly; the size accounting of the source
(`JSON.stringify(x).length`) is `jsLength` of these strings. -/

/-- Lowercase hexadecimal digit. -/
def hexDigit (n : Nat) : Char :=
  if n < 10 then Char.ofNat ('0'.toNat + n) else Char.ofNat ('a'.toNat + (n - 10))

/-- Escaping of one character of a string, as `JSON.stringify` performs it. -/
def jsonEscChar (c : Char) : Str :=
  if c = '"' then str "\\\""
  else if c = '\\' then str "\\\\"
  else if c.toNat = 8 then str "\\b"
  else if c = '\t' then str "\\t"
  else if c = '\n' then str "\\n"
  else if c.toNat = 12 then str "\\f"
  else if c = '\r' then str "\\r"
  else if c.toNat < 0x20 then str "\\u00" ++ [hexDigit (c.toNat / 16), hexDigit (c.toNat % 16)]
  else [c]

/-- A JSON string literal for `l`. -/
def jsonQuote (l : Str) : Str := '"' :: l.flatMap jsonEscChar ++ ['"']

/-- Serialization of an `IModuleResult` object by `JSON.stringify`: each entry `p ↦ code` is
serialized as `"p":\x7b"module":\x7b"code":"..."\x7d\x7d`. -/
def stringifyFilesObj (m : List (Str × Str)) : Str :=
  '\x7b' :: List.intercalate (str ",")
    (m.map (fun e =>
      jsonQuote e.1 ++ str ":\x7b\"module\":\x7b\"code\":" ++ jsonQuote e.2 ++ str "\x7d\x7d"))
    ++ ['\x7d']

/-- Serialization of the success envelope; `JSON.stringify` omits a field
whose value is `undefined`, hence the optional `droppedFileCount`. -/
def stringifyOk (files : List (Str × Str)) (droppedFileCount : Option Nat) : Str :=
  str "\x7b\"status\":\"ok\",\"files\":" ++ stringifyFilesObj files ++
    (match droppedFileCount with
     | some n => str ",\"droppedFileCount\":" ++ str (toString n)
     | none => []) ++ ['\x7d']

/-- A JS `Error`: a message and an optional stack trace (stack traces are
environment data; errors constructed by the source itself are modelled with
`stack = none`, and `JSON.stringify` omits an `undefined` field). -/
structure JSError where
  message : Str
  stack : Option Str

/-- Serialization of the error envelope (`files` is the empty object). -/
def stringifyError (e : JSError) : Str :=
  str "\x7b\"status\":\"error\",\"files\":\x7b\x7d,\"error\":" ++ jsonQuote e.message ++
    (match e.stack with
     | some s => str ",\"stack\":" ++ jsonQuote s
     | none => []) ++ ['\x7d']

/-! ### The response packager -/

/-- Source constant `MAX_RES_SIZE = 5.8 * 1024 * 1024`.  The exact value is the
non-integer rational `6081740.8`; the double actually computed by JS differs
from it by less than `10 ^ (-7)`, so every comparison with an integer string
length agrees between the two. -/
def MAX_RES_SIZE : ℚ := 5.8 * 1024 * 1024

/-- The `while` loop of `dropFiles`, with explicit fuel: while the serialized
accumulator is shorter than the ceiling and `index` is in range, assign
`result[paths[index]] = files[paths[index]]`.  The loop body never increments
`index`; `none` means the fuel ran out (the concrete loop did not reach its
stop condition within `fuel` iterations). -/
def dropFilesLoop (files : List (Str × Str)) (paths : List Str) :
    Nat → List (Str × Str) → Nat → Option (List (Str × Str) × Nat)
  | 0, _, _ => none
  | fuel + 1, result, index =>
    if (jsLength (stringifyFilesObj result) : ℚ) < MAX_RES_SIZE ∧ index < paths.length then
      dropFilesLoop files paths fuel
        (objSet result (paths.getD index []) (objGetD files (paths.getD index [])))
        index
    else some (result, index)

/-- Model of `function dropFiles(files)` from the source, with fuel for its loop;
returns the final `result` object and `droppedFileCount = index + 1`. -/
def dropFilesFuel (fuel : Nat) (files : List (Str × Str)) :
    Option (List (Str × Str) × Nat) :=
  (dropFilesLoop files (files.map (fun e => e.1)) fuel [] 0).map (fun r => (r.1, r.2 + 1))

/-- Model of `function dropFilesIfNeeded(filesWithNoPrefix)` from the source: measure
the candidate success envelope; over the ceiling, delegate to `dropFiles`,
otherwise pass the mapping through with no drop count. -/
def dropFilesIfNeededFuel (fuel : Nat) (filesWithNoPrefix : List (Str × Str)) :
    Option (List (Str × Str) × Option Nat) :=
  let resultSize := jsLength (stringifyOk filesWithNoPrefix none)
  if MAX_RES_SIZE < (resultSize : ℚ) then
    (dropFilesFuel fuel filesWithNoPrefix).map (fun r => (r.1, some r.2))
  else some (filesWithNoPrefix, none)

/-! ### Installer adapter and request handler

The external collaborators (the shell that runs `yarn add`, the filesystem
walked by `readDirectory`, the `hash-sum` library and `Math.random`) are
parameters of the model; the control flow around them is that of the source. -/

/-- The environment of one request: `exec` runs a shell command (resolving to
its stdout or rejecting), `readDir` is what `readDirectory` collects under a
given location (its internal recursion over the real filesystem is opaque
here). -/
structure InstallWorld where
  exec : Str → Except JSError Str
  readDir : Str → List (Str × Str)

/-- Model of `async function extractFiles(dependency, version, dependencyLocation)`
from the source: build the install command (a direct URL when the version
starts with `http`), run it, then collect and clean the files under the
staging `node_modules`.  The second component is the list of executed shell
commands (used to observe whether the installer ran). -/
def extractFiles (world : InstallWorld) (dependency version dependencyLocation : Str) :
    Except JSError (List (Str × Str)) × List Str :=
  let installQuery :=
    if (str "http").isPrefixOf version then version else dependency ++ '@' :: version
  let command :=
    str "cd /tmp && mkdir " ++ dependencyLocation ++ str " && cd " ++ dependencyLocation ++
      str " && npm init -y && HOME=/tmp yarn add --no-lockfile --non-interactive " ++
      str "--no-progress --prod --cache-folder ./ " ++ installQuery
  match world.exec command with
  | .error e => (.error e, [command])
  | .ok _ =>
    let dependencyPath := str "/tmp/" ++ dependencyLocation ++ str "/node_modules"
    let packagePath := dependencyPath ++ '/' :: dependency
    (.ok (cleanFiles (world.readDir dependencyPath) packagePath), [command])

/-- Source constant `BLACKLISTED_DEPENDENCIES = ["react-scripts"]`. -/
def BLACKLISTED_DEPENDENCIES : List Str := [str "react-scripts"]

/-- Model of `async function downloadDependencyTypings(depQuery)` from the source.
`hashSum` models the `hash-sum` library and `rand` the value of
`Math.floor(Math.random() * 100000)`.  Besides the result (`ok` mapping or
thrown error), the model returns the executed shell commands and the staging
directories removed by the `finally` block. -/
def downloadDependencyTypings (world : InstallWorld) (hashSum : Str → Str) (rand : Nat)
    (depQuery : Str) : Except JSError (List (Str × Str)) × List Str × List Str :=
  match getDependencyAndVersion depQuery with
  | none => (.error ⟨str "URI malformed", none⟩, [], [])
  | some (dependency, version) =>
    if BLACKLISTED_DEPENDENCIES.contains dependency then (.ok [], [], [])
    else
      let dependencyLocation := hashSum (dependency ++ '@' :: version) ++ str (toString rand)
      let dependencyPath := str "/tmp/" ++ dependencyLocation ++ str "/node_modules"
      let cleaned := [str "/tmp/" ++ dependencyLocation]
      match extractFiles world dependency version dependencyLocation with
      | (.error e, cmds) =>
        (.error ⟨dependencyLocation ++ str ": " ++ e.message, e.stack⟩, cmds, cleaned)
      | (.ok files, cmds) =>
        let filesWithNoPrefix :=
          files.foldl (fun t e => objSet t (replaceFirst e.1 dependencyPath []) e.2) []
        (.ok filesWithNoPrefix, cmds, cleaned)

/-- The `depQuery` query parameter as the `url` library reports it:
absent, a single string, or an array of strings. -/
structure JSRequest where
  depQuery : Option (Str ⊕ List Str)

structure JSResponse where
  statusCode : Nat
  headers : List (Str × Str)
  body : Str

/-- The `catch` branch of the request handler: status 422 and the error
envelope, on top of whatever headers were already set. -/
def errorResponse (headers : List (Str × Str)) (e : JSError) : JSResponse :=
  ⟨422, headers, stringifyError e⟩

def contentTypeHeader : Str × Str := (str "Content-Type", str "application/json")
def corsHeader : Str × Str := (str "Access-Control-Allow-Origin", str "*")
def cacheHeader : Str × Str := (str "Cache-Control", str "public, max-age=31536000")

/-- The default export of the source (the request handler).  A missing or
empty `depQuery` is falsy and throws; an array `depQuery` throws; then the
two JSON headers are set, the typings are downloaded (any thrown error lands
in the `catch` branch) and packaged.  `none` models a request that never
completes because the packaging loop diverges. -/
def handler (world : InstallWorld) (hashSum : Str → Str) (rand fuel : Nat)
    (req : JSRequest) : Option JSResponse :=
  match req.depQuery with
  | none => some (errorResponse [] ⟨str "Please provide a dependency", none⟩)
  | some (.inr _) => some (errorResponse [] ⟨str "Dependency should not be an array", none⟩)
  | some (.inl s) =>
    if s = [] then some (errorResponse [] ⟨str "Please provide a dependency", none⟩)
    else
      let headers := [contentTypeHeader, corsHeader]
      match downloadDependencyTypings world hashSum rand s with
      | (.error e, _, _) => some (errorResponse headers e)
      | (.ok files, _, _) =>
        match dropFilesIfNeededFuel fuel files with
        | none => none
        | some result =>
          some ⟨200, headers ++ [cacheHeader], stringifyOk result.1 result.2⟩

/-! ### Predicates written from the words of the claims (for refutations) -/

/-- The final path component (the filename). -/
def baseName (p : Str) : Str := (jsSplit '/' p).getLastD []

/-- The claimed inclusion rule of C5: under a `/src/` component keep `.d.ts`,
otherwise keep `.ts`, and in every case keep a path whose filename is
exactly `package.json`. -/
def claimC5Keep (p : Str) : Bool :=
  (if strInfixOf (str "/src/") p then (str ".d.ts").isSuffixOf p
   else (str ".ts").isSuffixOf p)
  || baseName p == str "package.json"

/-- The corrected inclusion rule: as claimed, except that the unconditional
clause keeps any path that ends with the string `package.json`, whether or
not that is the whole filename. -/
def amendedC5Keep (p : Str) : Bool :=
  (if strInfixOf (str "/src/") p then (str ".d.ts").isSuffixOf p
   else (str ".ts").isSuffixOf p)
  || (str "package.json").isSuffixOf p

/-- Test that `q` lies strictly under the directory `dir` (path-component boundary). -/
def nestedUnder (dir q : Str) : Bool := (dir ++ ['/']).isPrefixOf q

/-- Whether the content parses as JSON that declares a `typings` or `types`
field (the condition claimed by C4: declared, not necessarily truthy). -/
def declaresTypesField (code : Str) : Bool :=
  match jsonParse code with
  | some parsed =>
    (getProp parsed (str "typings")).isSome || (getProp parsed (str "types")).isSome
  | none => false

/-- The claimed retention rule of C4: `.ts` paths; the root manifest; any other
`package.json` that declares a typings field or has a retained `.ts` path
nested under its containing directory. -/
def claimC4Keep (files : List (Str × Str)) (rootPath : Str) (p : Str) : Bool :=
  (str ".ts").isSuffixOf p
  || p == pathJoin rootPath (str "package.json")
  || (baseName p == str "package.json"
      && (declaresTypesField (objGetD files p)
          || files.any (fun q => nestedUnder (dirname p) q.1 && (str ".ts").isSuffixOf q.1)))

/-- Index of the last `@` that is not at position 0, if any. -/
def lastNonLeadingAt (q : Str) : Option Nat :=
  ((List.range q.length).filter (fun i => 1 ≤ i ∧ q.getD i ' ' = '@')).getLast?

/-- The claimed parse of C6: split the query at the last `@` not at position 0 and
percent-decode the text after it as the version. -/
def claimC6Parse (q : Str) : Option (Str × Str) :=
  (lastNonLeadingAt q).bind (fun i =>
    (decodeURIComponent (q.drop (i + 1))).map (fun v => (q.take i, v)))

/-- The keys of `input` that do not occur among the keys of `output` (used to
count the entries actually dropped by the packager). -/
def missingKeys (input output : List (Str × Str)) : List Str :=
  (input.map (fun e => e.1)).filter (fun p => !(output.map (fun e => e.1)).contains p)

/-! ### Concrete inputs used by refutations -/

/-- A single file whose serialized entry is just over the ceiling. -/
def c1BigFiles : List (Str × Str) := [(str "/a", List.replicate 6081712 'a')]

/-- Two small files: the truncation loop never reaches its stop condition on
this mapping. -/
def c2Files : List (Str × Str) := [(str "/a.ts", str "x"), (str "/b.ts", str "y")]

/-- A manifest with malformed JSON next to a `.ts` file that shares the
string prefix `/a/b` without lying under the directory `/a/b`. -/
def c4Files : List (Str × Str) :=
  [(str "/a/b/package.json", str "notjson"), (str "/a/bc/x.ts", str "")]

/-- An environment whose installer always succeeds with an empty tree. -/
def trivialWorld : InstallWorld := ⟨fun _ => .ok [], fun _ => []⟩

/-- The request ends in the catch branch of the handler: the query parameter is
missing, empty or an array, or `downloadDependencyTypings` throws (installer
failure or any fault during extraction). -/
def requestFails (world : InstallWorld) (hashSum : Str → Str) (rand : Nat)
    (req : JSRequest) : Prop :=
  req.depQuery = none ∨ req.depQuery = some (.inl []) ∨
    (∃ a, req.depQuery = some (.inr a)) ∨
    (∃ s e t c, req.depQuery = some (.inl s) ∧ s ≠ [] ∧
      downloadDependencyTypings world hashSum rand s = (.error e, t, c))

/-! ## Length bookkeeping lemmas -/

theorem jsLength_nil : jsLength [] = 0 := rfl

theorem jsLength_cons (c : Char) (l : Str) :
    jsLength (c :: l) = (if c.toNat < 0x10000 then 1 else 2) + jsLength l := by
  simp [jsLength]

theorem jsLength_append (a b : Str) : jsLength (a ++ b) = jsLength a + jsLength b := by
  simp [jsLength]

theorem flatMap_esc_replicate_a (n : Nat) :
    (List.replicate n 'a').flatMap jsonEscChar = List.replicate n 'a' := by
  induction n with
  | zero => rfl
  | succ n ih =>
    have h : jsonEscChar 'a' = ['a'] := by decide
    simp [List.replicate_succ, h, ih]

theorem jsLength_replicate_a (n : Nat) : jsLength (List.replicate n 'a') = n := by
  induction n with
  | zero => rfl
  | succ n ih =>
    rw [List.replicate_succ, jsLength_cons, if_pos (by decide), ih]
    omega

theorem jsLength_quote_replicate_a (n : Nat) :
    jsLength (jsonQuote (List.replicate n 'a')) = n + 2 := by
  rw [jsonQuote, flatMap_esc_replicate_a, jsLength_append, jsLength_cons,
    if_pos (by decide), jsLength_replicate_a]
  have h : jsLength ['"'] = 1 := by decide
  rw [h]
  omega

theorem stringifyFilesObj_singleton (k v : Str) :
    stringifyFilesObj [(k, v)] =
      '\x7b' :: (jsonQuote k ++ str ":\x7b\"module\":\x7b\"code\":" ++ jsonQuote v
        ++ str "\x7d\x7d") ++ ['\x7d'] := by
  simp [stringifyFilesObj, List.intercalate]

theorem jsLength_stringifyFilesObj_c1 :
    jsLength (stringifyFilesObj c1BigFiles) = 6081741 := by
  have e1 : jsLength (jsonQuote (str "/a")) = 4 := by decide
  have e2 : jsLength (str ":\x7b\"module\":\x7b\"code\":") = 19 := by decide
  have e3 : jsLength (str "\x7d\x7d") = 2 := by decide
  have e4 : jsLength ['\x7d'] = 1 := by decide
  have eb : jsLength (jsonQuote (List.replicate 6081712 'a')) = 6081714 :=
    jsLength_quote_replicate_a 6081712
  rw [show c1BigFiles = [(str "/a", List.replicate 6081712 'a')] from rfl,
    stringifyFilesObj_singleton, jsLength_append, jsLength_cons, if_pos (by decide),
    jsLength_append, jsLength_append, jsLength_append, e1, e2, e3, e4, eb]

theorem jsLength_stringifyOk_c1_none :
    jsLength (stringifyOk c1BigFiles none) = 6081765 := by
  have e1 : jsLength (str "\x7b\"status\":\"ok\",\"files\":") = 23 := by decide
  have e2 : jsLength ['\x7d'] = 1 := by decide
  rw [show stringifyOk c1BigFiles none
      = str "\x7b\"status\":\"ok\",\"files\":" ++ stringifyFilesObj c1BigFiles ++ [] ++ ['\x7d']
    from rfl, jsLength_append, jsLength_append, jsLength_append, e1, e2,
    jsLength_stringifyFilesObj_c1, jsLength_nil]

theorem jsLength_stringifyOk_c1_some :
    jsLength (stringifyOk c1BigFiles (some 1)) = 6081786 := by
  have e1 : jsLength (str "\x7b\"status\":\"ok\",\"files\":") = 23 := by decide
  have e2 : jsLength ['\x7d'] = 1 := by decide
  have e3 : jsLength (str ",\"droppedFileCount\":" ++ str (toString 1)) = 21 := by decide
  rw [show stringifyOk c1BigFiles (some 1)
      = str "\x7b\"status\":\"ok\",\"files\":" ++ stringifyFilesObj c1BigFiles
        ++ (str ",\"droppedFileCount\":" ++ str (toString 1)) ++ ['\x7d']
    from rfl, jsLength_append, jsLength_append, jsLength_append, e1, e2, e3,
    jsLength_stringifyFilesObj_c1]

/-! ## Object-model lemmas -/

theorem objSet_nil (k v : Str) : objSet [] k v = [(k, v)] := by simp [objSet]

theorem objSet_singleton_self (k v w : Str) : objSet [(k, v)] k w = [(k, w)] := by
  simp [objSet]

theorem objGetD_cons_self (k v : Str) (l : List (Str × Str)) :
    objGetD ((k, v) :: l) k = v := by
  simp [objGetD, List.find?_cons_of_pos]

/-! ## Evaluation of the truncation loop on the refuting inputs -/

theorem dropFilesLoop_c1 (fuel : Nat) :
    dropFilesLoop c1BigFiles (c1BigFiles.map (fun e => e.1)) (fuel + 2) [] 0
      = some (c1BigFiles, 0) := by
  have hpaths : c1BigFiles.map (fun e => e.1) = [str "/a"] := rfl
  have hval : objGetD c1BigFiles (str "/a") = List.replicate 6081712 'a' :=
    objGetD_cons_self _ _ _
  have h2 : fuel + 2 = (fuel + 1) + 1 := rfl
  rw [hpaths, h2]
  simp only [dropFilesLoop]
  rw [if_pos]
  · have hkey : ([str "/a"]).getD 0 [] = str "/a" := rfl
    rw [hkey, hval, objSet_nil]
    rw [if_neg]
    · rfl
    · intro hcon
      have h1 := hcon.1
      rw [show ([(str "/a", List.replicate 6081712 'a')] : List (Str × Str)) = c1BigFiles
        from rfl, jsLength_stringifyFilesObj_c1] at h1
      norm_num [MAX_RES_SIZE] at h1
  · constructor
    · have h0 : jsLength (stringifyFilesObj []) = 2 := by decide
      rw [h0]
      norm_num [MAX_RES_SIZE]
    · decide

theorem dropFilesFuel_c1 (fuel : Nat) :
    dropFilesFuel (fuel + 2) c1BigFiles = some (c1BigFiles, 1) := by
  rw [dropFilesFuel, dropFilesLoop_c1]
  rfl

theorem dropFilesIfNeeded_c1 (fuel : Nat) :
    dropFilesIfNeededFuel (fuel + 2) c1BigFiles = some (c1BigFiles, some 1) := by
  simp only [dropFilesIfNeededFuel]
  rw [if_pos, dropFilesFuel_c1]
  · rfl
  · rw [jsLength_stringifyOk_c1_none]
    norm_num [MAX_RES_SIZE]

theorem dropFilesLoop_c2_fixed (n : Nat) :
    dropFilesLoop c2Files (c2Files.map (fun e => e.1)) n [(str "/a.ts", str "x")] 0
      = none := by
  induction n with
  | zero => rfl
  | succ n ih =>
    simp only [dropFilesLoop]
    rw [if_pos]
    · have hkey : ((c2Files.map (fun e => e.1))).getD 0 [] = str "/a.ts" := by decide
      have hval : objGetD c2Files (str "/a.ts") = str "x" := by decide
      rw [hkey, hval, objSet_singleton_self]
      exact ih
    · constructor
      · have h0 : jsLength (stringifyFilesObj [(str "/a.ts", str "x")]) = 33 := by decide
        rw [h0]
        norm_num [MAX_RES_SIZE]
      · decide

/-! ## Claims C1, C2, C3: the response packager -/

/-- C1: refuted on the code.  The claim says the packager never emits a
success envelope longer than the `5.8 * 1024 * 1024` ceiling, dropping
entries until the ceiling is met.  On a mapping holding one file of
6081712 `a`s the candidate envelope exceeds the ceiling, so `dropFiles`
runs; its loop (which never advances `index`) stops only because the single
re-assigned entry is itself over the ceiling, and the packager returns the
whole mapping with `droppedFileCount = 1`: the serialized success envelope of
the returned value still exceeds the ceiling. -/
theorem C1_packager_exceeds_ceiling :
    ∀ fuel : Nat, ∃ out,
      dropFilesIfNeededFuel (fuel + 2) c1BigFiles = some out ∧
        MAX_RES_SIZE < (jsLength (stringifyOk out.1 out.2) : ℚ) := by
  intro fuel
  refine ⟨(c1BigFiles, some 1), dropFilesIfNeeded_c1 fuel, ?_⟩
  rw [jsLength_stringifyOk_c1_some]
  norm_num [MAX_RES_SIZE]

/-- C2: refuted on the code.  The claim says the truncation loop of
`dropFiles` terminates on every finite mapping.  The loop body never
increments `index`, so on a mapping of two small files it keeps re-assigning
the first entry below the ceiling and never reaches its stop condition: for
every amount of fuel the loop is still running. -/
theorem C2_dropFiles_loop_diverges :
    ∀ fuel : Nat, dropFilesFuel fuel c2Files = none := by
  intro fuel
  cases fuel with
  | zero => rfl
  | succ n =>
    rw [dropFilesFuel]
    simp only [dropFilesLoop]
    rw [if_pos]
    · have hkey : ((c2Files.map (fun e => e.1))).getD 0 [] = str "/a.ts" := by decide
      have hval : objGetD c2Files (str "/a.ts") = str "x" := by decide
      rw [hkey, hval, objSet_nil, dropFilesLoop_c2_fixed]
      rfl
    · constructor
      · have h0 : jsLength (stringifyFilesObj []) = 2 := by decide
        rw [h0]
        norm_num [MAX_RES_SIZE]
      · decide

/-- C3: refuted on the code.  The claim says that whenever truncation occurs
the reported `droppedFileCount` equals the number of input entries missing
from the returned mapping.  On the single-huge-file mapping truncation does
occur (the candidate envelope exceeds the ceiling), the packager reports
`droppedFileCount = 1`, yet no key of the input is missing from the returned
mapping. -/
theorem C3_dropped_count_mismatch :
    ∀ fuel : Nat,
      MAX_RES_SIZE < (jsLength (stringifyOk c1BigFiles none) : ℚ) ∧
      dropFilesIfNeededFuel (fuel + 2) c1BigFiles = some (c1BigFiles, some 1) ∧
      (missingKeys c1BigFiles c1BigFiles).length = 0 := by
  intro fuel
  refine ⟨?_, dropFilesIfNeeded_c1 fuel, ?_⟩
  · rw [jsLength_stringifyOk_c1_none]
    norm_num [MAX_RES_SIZE]
  · rfl

/-! ## The typings filter characterized as a key filter -/

theorem objSet_append_of_not_key (m : List (Str × Str)) (k v : Str)
    (h : ∀ e ∈ m, e.1 ≠ k) : objSet m k v = m ++ [(k, v)] := by
  rw [objSet, if_neg]
  intro hc
  simp only [List.any_eq_true, beq_iff_eq] at hc
  obtain ⟨e, he, hek⟩ := hc
  exact h e he hek

theorem foldl_objSet_filter (B : Str → Bool) (V : Str → Str) (ks : List Str) :
    ∀ acc, (∀ p ∈ ks, ∀ e ∈ acc, e.1 ≠ p) → ks.Nodup →
      ks.foldl (fun a p => if B p then objSet a p (V p) else a) acc
        = acc ++ (ks.filter B).map (fun p => (p, V p)) := by
  induction ks with
  | nil => intro acc _ _; simp
  | cons k ks ih =>
    intro acc hd hnd
    obtain ⟨hk1, hk2⟩ := List.nodup_cons.mp hnd
    simp only [List.foldl_cons, List.filter_cons]
    by_cases hb : B k
    · have hdisj2 : ∀ p ∈ ks, ∀ e ∈ acc ++ [(k, V k)], e.1 ≠ p := by
        intro p hp e he
        rcases List.mem_append.mp he with h1 | h1
        · exact hd p (List.mem_cons_of_mem k hp) e h1
        · have he2 : e = (k, V k) := by simpa using h1
          rw [he2]
          intro hkp
          apply hk1
          have : k = p := hkp
          rw [this]
          exact hp
      rw [if_pos hb, if_pos hb,
        objSet_append_of_not_key acc k (V k) (fun e he => hd k (List.mem_cons_self k ks) e he),
        ih (acc ++ [(k, V k)]) hdisj2 hk2, List.map_cons, List.append_assoc,
        List.singleton_append]
    · rw [if_neg hb, if_neg hb,
        ih acc (fun p hp e he => hd p (List.mem_cons_of_mem k hp) e he) hk2]

theorem objGetD_cons_ne (k v p : Str) (l : List (Str × Str)) (h : k ≠ p) :
    objGetD ((k, v) :: l) p = objGetD l p := by
  rw [objGetD, objGetD, List.find?_cons_of_neg]
  simp [h]

theorem map_filter_keys_eq (B : Str → Bool) :
    ∀ files : List (Str × Str), (files.map (fun e => e.1)).Nodup →
      ((files.map (fun e => e.1)).filter B).map (fun p => (p, objGetD files p))
        = files.filter (fun e => B e.1) := by
  intro files
  induction files with
  | nil => intro _; rfl
  | cons a l ih =>
    intro hnd
    simp only [List.map_cons] at hnd
    obtain ⟨ha, hl⟩ := List.nodup_cons.mp hnd
    have hgetself : objGetD (a :: l) a.1 = a.2 := by
      rw [show a = (a.1, a.2) from rfl]
      exact objGetD_cons_self _ _ _
    have hcongr : ((l.map (fun e => e.1)).filter B).map (fun p => (p, objGetD (a :: l) p))
        = ((l.map (fun e => e.1)).filter B).map (fun p => (p, objGetD l p)) := by
      apply List.map_congr_left
      intro p hp
      have hpl : p ∈ l.map (fun e => e.1) := (List.mem_filter.mp hp).1
      have hne : a.1 ≠ p := fun he => ha (he ▸ hpl)
      rw [show a = (a.1, a.2) from rfl, objGetD_cons_ne a.1 a.2 p l hne]
    simp only [List.map_cons, List.filter_cons]
    by_cases hb : B a.1
    · rw [if_pos hb, if_pos hb, List.map_cons, hgetself, hcongr, ih hl]
    · rw [if_neg hb, if_neg hb, hcongr, ih hl]

theorem contains_filter_of_mem (paths : List Str) (cond : Str → Bool) (p : Str)
    (hp : p ∈ paths) : (paths.filter cond).contains p = cond p := by
  by_cases hc : cond p = true
  · rw [hc]
    have hmem : p ∈ paths.filter cond := List.mem_filter.mpr ⟨hp, hc⟩
    simp [List.contains, hmem]
  · rw [Bool.eq_false_iff.mpr hc]
    have hmem : p ∉ paths.filter cond := fun hm => hc (List.mem_filter.mp hm).2
    simp [List.contains, hmem]

theorem contains_validDeps (files : List (Str × Str)) (rootPath p : Str)
    (hp : p ∈ files.map (fun e => e.1)) :
    (((files.map (fun e => e.1)).filter (fun checkedPath =>
        if checkedPath == pathJoin rootPath (str "package.json") then true
        else if (str "/package.json").isSuffixOf checkedPath then
          (if hasTypesFieldTruthy (objGetD files checkedPath) then true
           else (files.map (fun e => e.1)).any (fun q =>
             (dirname checkedPath).isPrefixOf q && (str ".ts").isSuffixOf q))
        else false)).contains p)
      = (if p == pathJoin rootPath (str "package.json") then true
         else if (str "/package.json").isSuffixOf p then
           (if hasTypesFieldTruthy (objGetD files p) then true
            else (files.map (fun e => e.1)).any (fun q =>
              (dirname p).isPrefixOf q && (str ".ts").isSuffixOf q))
         else false) :=
  contains_filter_of_mem _ _ _ hp

theorem any_keys_eq (files : List (Str × Str)) (p : Str) :
    (files.map (fun e => e.1)).any (fun q =>
      (dirname p).isPrefixOf q && (str ".ts").isSuffixOf q)
      = files.any (fun q => (dirname p).isPrefixOf q.1 && (str ".ts").isSuffixOf q.1) := by
  induction files with
  | nil => rfl
  | cons a l ih => simp only [List.map_cons, List.any_cons, ih]

theorem filtermap_eq (files : List (Str × Str)) (B C : Str → Bool)
    (hnd : (files.map (fun e => e.1)).Nodup)
    (hBC : ∀ p ∈ files.map (fun e => e.1), B p = C p) :
    ((files.map (fun e => e.1)).filter B).map (fun p => (p, objGetD files p))
      = files.filter (fun e => C e.1) := by
  rw [List.filter_congr hBC, map_filter_keys_eq C files hnd]

/-- The function `cleanFiles` keeps exactly the entries allowed by `retainSpec` (for the
JS-object inputs, whose keys are unique). -/
theorem cleanFiles_eq_filter (files : List (Str × Str)) (rootPath : Str)
    (hnd : (files.map (fun e => e.1)).Nodup) :
    cleanFiles files rootPath = files.filter (fun e => retainSpec files rootPath e.1) := by
  simp only [cleanFiles]
  rw [foldl_objSet_filter _ _ _ [] (fun p _ e he => absurd he (List.not_mem_nil e)) hnd,
    List.nil_append]
  refine filtermap_eq files _ _ hnd ?_
  intro p hp
  rw [contains_validDeps files rootPath p hp]
  have hmap := any_keys_eq files p
  cases h1 : (p == pathJoin rootPath (str "package.json")) <;>
    cases h2 : (str "/package.json").isSuffixOf p <;>
      cases h3 : hasTypesFieldTruthy (objGetD files p) <;>
        cases h4 : (str ".ts").isSuffixOf p <;>
          simp [retainSpec, h1, h2, h3, h4, hmap]

theorem objGetD_filter_key (Bk : Str → Bool) (p : Str) (hBp : Bk p = true) :
    ∀ l : List (Str × Str), objGetD (l.filter (fun e => Bk e.1)) p = objGetD l p := by
  intro l
  induction l with
  | nil => rfl
  | cons a l ih =>
    obtain ⟨k, v⟩ := a
    rw [List.filter_cons]
    by_cases hap : k = p
    · have hB : Bk (k, v).1 = true := by
        show Bk k = true
        rw [hap]
        exact hBp
      rw [if_pos hB, hap, objGetD_cons_self, objGetD_cons_self]
    · by_cases hBa : Bk (k, v).1 = true
      · rw [if_pos hBa, objGetD_cons_ne k v p _ hap, objGetD_cons_ne k v p _ hap, ih]
      · rw [if_neg hBa, ih, objGetD_cons_ne k v p _ hap]

/-! ## Claims C4 and C10: the typings filter -/

/-- C4 (counterexample): the claim reads `cleanFiles` as retaining a
non-typings manifest only when a retained `.ts` file is nested under the
directory of the manifest.  The code tests a plain string prefix instead: with a
malformed `/a/b/package.json` and a `.ts` file at `/a/bc/x.ts` (not nested
under `/a/b`), `cleanFiles` keeps the manifest while the claimed rule drops
it. -/
theorem C4_counterexample :
    cleanFiles c4Files (str "/r")
      ≠ c4Files.filter (fun e => claimC4Keep c4Files (str "/r") e.1) := by
  decide

/-- C4 (amended): for key-unique mappings, `cleanFiles` retains exactly the
entries allowed by `retainSpec`: `.ts` paths, the root manifest
`join(rootPath, "package.json")` unconditionally, and any other path ending
in `/package.json` whose content parses as JSON with a truthy `typings` or
`types` field (malformed JSON never errors) or such that some `.ts` path of
the mapping starts with the string `dirname(manifest)` — a string prefix,
not a path-boundary test. -/
theorem C4_cleanFiles_retention (files : List (Str × Str)) (rootPath : Str)
    (hnd : (files.map (fun e => e.1)).Nodup) :
    cleanFiles files rootPath = files.filter (fun e => retainSpec files rootPath e.1) :=
  cleanFiles_eq_filter files rootPath hnd

/-- C4 (witness): the amended characterization evaluated on a concrete
mapping holding the root manifest and a `.ts` file. -/
theorem C4_cleanFiles_retention_witness :
    (((([(str "/r/package.json", str "\x7b\x7d"), (str "/r/a.ts", str "x")] :
        List (Str × Str))).map (fun e => e.1)).Nodup) ∧
      cleanFiles [(str "/r/package.json", str "\x7b\x7d"), (str "/r/a.ts", str "x")]
          (str "/r")
        = ([(str "/r/package.json", str "\x7b\x7d"), (str "/r/a.ts", str "x")] :
            List (Str × Str)).filter
            (fun e => retainSpec
              [(str "/r/package.json", str "\x7b\x7d"), (str "/r/a.ts", str "x")]
              (str "/r") e.1) :=
  ⟨by decide, C4_cleanFiles_retention _ _ (by decide)⟩

/-- C10: for key-unique mappings, `cleanFiles` returns a submapping (every
output entry is an entry of the input) and is idempotent. -/
theorem C10_cleanFiles_submapping_idempotent (files : List (Str × Str)) (rootPath : Str)
    (hnd : (files.map (fun e => e.1)).Nodup) :
    (∀ e ∈ cleanFiles files rootPath, e ∈ files) ∧
      cleanFiles (cleanFiles files rootPath) rootPath = cleanFiles files rootPath := by
  have hmain := cleanFiles_eq_filter files rootPath hnd
  constructor
  · intro e he
    rw [hmain] at he
    exact (List.mem_filter.mp he).1
  · have hndg : ((cleanFiles files rootPath).map (fun e => e.1)).Nodup := by
      rw [hmain]
      exact List.Nodup.sublist (List.Sublist.map _ (List.filter_sublist files)) hnd
    rw [cleanFiles_eq_filter (cleanFiles files rootPath) rootPath hndg]
    apply List.filter_eq_self.mpr
    intro e he
    have he2 := he
    rw [hmain] at he2
    obtain ⟨hef, hK⟩ := List.mem_filter.mp he2
    simp only [retainSpec, Bool.or_eq_true, Bool.and_eq_true] at hK ⊢
    rcases hK with (h1 | h2) | ⟨h3, h4⟩
    · exact Or.inl (Or.inl h1)
    · exact Or.inl (Or.inr h2)
    · refine Or.inr ⟨h3, ?_⟩
      have hKbool : retainSpec files rootPath e.1 = true := by
        simp only [retainSpec, Bool.or_eq_true, Bool.and_eq_true]
        exact Or.inr ⟨h3, h4⟩
      rcases h4 with h5 | h6
      · left
        have hget : objGetD (cleanFiles files rootPath) e.1 = objGetD files e.1 := by
          rw [hmain]
          exact objGetD_filter_key (retainSpec files rootPath) e.1 hKbool files
        rw [hget]
        exact h5
      · right
        simp only [List.any_eq_true, Bool.and_eq_true] at h6 ⊢
        obtain ⟨q, hq, hq1, hq2⟩ := h6
        refine ⟨q, ?_, hq1, hq2⟩
        rw [hmain]
        refine List.mem_filter.mpr ⟨hq, ?_⟩
        simp only [retainSpec, Bool.or_eq_true]
        exact Or.inl (Or.inl hq2)

/-- C10 (witness): submapping and idempotence evaluated on a concrete
mapping. -/
theorem C10_cleanFiles_submapping_idempotent_witness :
    ((([(str "/r/package.json", str "oops"), (str "/r/lib/i.d.ts", str "")] :
        List (Str × Str)).map (fun e => e.1)).Nodup) ∧
      ((∀ e ∈ cleanFiles [(str "/r/package.json", str "oops"), (str "/r/lib/i.d.ts", str "")]
          (str "/r"),
        e ∈ ([(str "/r/package.json", str "oops"), (str "/r/lib/i.d.ts", str "")] :
          List (Str × Str))) ∧
      cleanFiles (cleanFiles
          [(str "/r/package.json", str "oops"), (str "/r/lib/i.d.ts", str "")] (str "/r"))
          (str "/r")
        = cleanFiles [(str "/r/package.json", str "oops"), (str "/r/lib/i.d.ts", str "")]
            (str "/r")) :=
  ⟨by decide, C10_cleanFiles_submapping_idempotent _ _ (by decide)⟩

/-! ## Claim C5: the inclusion predicate of the collector -/

/-- C5 (counterexample): the claim keeps a path, beyond the extension rules,
only when its filename is exactly `package.json`; the code tests
`path.endsWith("package.json")`, so `/a/xpackage.json` is kept by the code
and dropped by the claimed rule. -/
theorem C5_counterexample :
    isFileValid (str "/a/xpackage.json") = true
      ∧ claimC5Keep (str "/a/xpackage.json") = false := by
  decide

/-- C5 (amended): `isFileValid` keeps a path iff it has the required
extension (`.d.ts` under a `/src/` component, `.ts` otherwise) or it ends
with the string `package.json` (not necessarily as the whole filename). -/
theorem C5_isFileValid_characterization (p : Str) : isFileValid p = amendedC5Keep p := by
  simp only [isFileValid, amendedC5Keep, TYPE_ONLY_DIRECTORIES, List.any_cons,
    List.any_nil, Bool.or_false]
  rw [show ('/' :: str "src" ++ ['/']) = str "/src/" from rfl]
  cases h1 : strInfixOf (str "/src/") p <;>
    cases h2 : (str ".d.ts").isSuffixOf p <;>
      cases h3 : (str ".ts").isSuffixOf p <;>
        cases h4 : (str "package.json").isSuffixOf p <;>
          simp [h1, h2, h3, h4]

/-! ## Claim C6 and C9: the query parser -/

theorem jsSplit_ne_nil (sep : Char) (l : Str) : jsSplit sep l ≠ [] := by
  induction l with
  | nil => simp [jsSplit]
  | cons c rest ih =>
    rw [jsSplit]
    by_cases h : c = sep
    · rw [if_pos h]
      simp
    · rw [if_neg h]
      cases hq : jsSplit sep rest <;> simp

theorem jsSplit_length (sep : Char) (l : Str) :
    (jsSplit sep l).length = l.count sep + 1 := by
  induction l with
  | nil => rfl
  | cons c rest ih =>
    rw [jsSplit]
    by_cases h : c = sep
    · rw [if_pos h, List.length_cons, ih, h, List.count_cons_self]
    · rw [if_neg h]
      cases hq : jsSplit sep rest with
      | nil => exact absurd hq (jsSplit_ne_nil sep rest)
      | cons g gs =>
        have hlen : (g :: gs).length = rest.count sep + 1 := by
          rw [← hq]
          exact ih
        rw [List.length_cons, List.count_cons_of_ne (fun he => h he.symm)]
        rw [List.length_cons] at hlen
        omega

theorem replaceFirst_of_prefix (pat rest repl : Str) :
    replaceFirst (pat ++ rest) pat repl = repl ++ rest := by
  cases pat with
  | nil =>
    cases rest with
    | nil => simp [replaceFirst]
    | cons c r => simp [replaceFirst]
  | cons p ps =>
    rw [List.cons_append, replaceFirst, if_pos]
    · rw [List.length_cons, List.drop_succ_cons, List.drop_left]
    · rw [ List.isPrefixOf_iff_prefix, ← List.cons_append]
      exact List.prefix_append _ _

/-- The else-branch of `getDependencyAndVersion`, exposed as an equation. -/
theorem getDependencyAndVersion_else (q : Str)
    (hguard : ¬(((str "@").isPrefixOf q ∧ (jsSplit '@' q).length = 2)
      ∨ (jsSplit '@' q).length = 1)) :
    getDependencyAndVersion q
      = (decodeURIComponent (replaceFirst q (getDependencyName q ++ ['@']) [])).map
          (fun version => (getDependencyName q, version)) := by
  rw [getDependencyAndVersion, if_neg hguard]

/-- Any string containing a non-leading `@` fails the latest-version guard of
`getDependencyAndVersion`. -/
theorem guard_false_of_separator (pre post : Str) (h1 : pre ≠ []) :
    ¬(((str "@").isPrefixOf (pre ++ '@' :: post)
        ∧ (jsSplit '@' (pre ++ '@' :: post)).length = 2)
      ∨ (jsSplit '@' (pre ++ '@' :: post)).length = 1) := by
  have hlen := jsSplit_length '@' (pre ++ '@' :: post)
  have hcount : (pre ++ '@' :: post).count '@'
      = pre.count '@' + (post.count '@' + 1) := by
    rw [List.count_append, List.count_cons_self]
  intro hg
  rcases hg with ⟨hpre, hlen2⟩ | hlen1
  · cases pre with
    | nil => exact h1 rfl
    | cons p0 pr =>
      have hp0 : p0 = '@' := by
        rw [show str "@" = ['@'] from rfl] at hpre
        have h := List.isPrefixOf_iff_prefix.mp hpre
        obtain ⟨t, ht⟩ := h
        rw [List.cons_append] at ht
        exact (List.cons.injEq _ _ _ _ ▸ ht).1.symm
      have hpr : (p0 :: pr).count '@' ≥ 1 := by
        rw [hp0, List.count_cons_self]
        omega
      omega
  · omega

/-- C6 (counterexample): the claim splits at the last `@` not at position 0.
On `a@1@2` the claimed rule yields name `a@1` and version `2`, while the code
(whose `removeVersion` regex deletes from the first non-leading `@`) yields
name `a` and version `1@2`. -/
theorem C6_counterexample :
    getDependencyAndVersion (str "a@1@2") = some (str "a", str "1@2")
      ∧ claimC6Parse (str "a@1@2") = some (str "a@1", str "2")
      ∧ getDependencyAndVersion (str "a@1@2") ≠ claimC6Parse (str "a@1@2") := by
  decide

/-- C6 (amended): the separator is the first `@` not at position 0.  For a
query `pre ++ "@" ++ post` whose separator is that first non-leading `@`
(`pre` nonempty with no `@` past its head), whenever the extracted name
equals the whole prefix `pre` and percent-decoding succeeds, the parser
returns the name `pre` and the percent-decoded text after that `@` as the
version. -/
theorem C6_split_at_first_separator (pre post : Str) (h1 : pre ≠ [])
    (h2 : ∀ c ∈ pre.tail, c ≠ '@')
    (h3 : getDependencyName (pre ++ '@' :: post) = pre)
    (v : Str) (h4 : decodeURIComponent post = some v) :
    getDependencyAndVersion (pre ++ '@' :: post) = some (pre, v) := by
  rw [getDependencyAndVersion_else _ (guard_false_of_separator pre post h1), h3,
    show pre ++ '@' :: post = (pre ++ ['@']) ++ post by simp,
    replaceFirst_of_prefix, List.nil_append, h4]
  rfl

/-- C6 (witness): the amended statement applied to `@scope/name@%5E1.0`. -/
theorem C6_split_at_first_separator_witness :
    getDependencyAndVersion (str "@scope/name" ++ '@' :: str "%5E1.0")
      = some (str "@scope/name", str "^1.0") :=
  C6_split_at_first_separator (str "@scope/name") (str "%5E1.0")
    (by decide) (by decide) (by decide) (str "^1.0") (by decide)

theorem mem_removeVersionAux (c : Char) (l : Str) : c ∈ removeVersionAux l → c ∈ l := by
  induction l with
  | nil => simp [removeVersionAux]
  | cons a rest ih =>
    rw [removeVersionAux]
    by_cases h : a = '@'
    · rw [if_pos h]
      intro hc
      exact List.mem_cons_of_mem a ((List.dropWhile_sublist _).subset hc)
    · rw [if_neg h]
      intro hc
      rcases List.mem_cons.mp hc with h1 | h1
      · exact List.mem_cons.mpr (Or.inl h1)
      · exact List.mem_cons_of_mem a (ih h1)

theorem mem_removeVersion (c : Char) (l : Str) : c ∈ removeVersion l → c ∈ l := by
  cases l with
  | nil => simp [removeVersion]
  | cons a rest =>
    rw [removeVersion]
    intro hc
    rcases List.mem_cons.mp hc with h1 | h1
    · exact List.mem_cons.mpr (Or.inl h1)
    · exact List.mem_cons_of_mem a (mem_removeVersionAux c rest h1)

theorem jsSplit_of_not_mem (sep : Char) (l : Str) (h : sep ∉ l) : jsSplit sep l = [l] := by
  induction l with
  | nil => rfl
  | cons c rest ih =>
    rw [jsSplit, if_neg (fun he => h (by rw [he]; exact List.mem_cons_self sep rest)),
      ih (fun hm => h (List.mem_cons_of_mem c hm))]

/-- C9: a scoped query with a version but no `/` (such as `@foo@1.0`) gets a
dependency name equal to the scope text before the separator followed by the
literal `/undefined`: the second `shift` runs on an exhausted segment list
and interpolates JS `undefined` into the name. -/
theorem C9_scoped_no_slash_undefined (q : Str)
    (h1 : (str "@").isPrefixOf q) (h2 : 3 ≤ (jsSplit '@' q).length)
    (h3 : ∀ c ∈ q, c ≠ '/') :
    getDependencyName q = removeVersion q ++ str "/undefined"
      ∧ ∀ spec, getDependencyAndVersion q = some spec →
          spec.1 = removeVersion q ++ str "/undefined" := by
  have hnos : '/' ∉ removeVersion q := fun hm => h3 '/' (mem_removeVersion '/' q hm) rfl
  have hname : getDependencyName q = removeVersion q ++ str "/undefined" := by
    simp only [getDependencyName, jsSplit_of_not_mem '/' _ hnos, h1]
    simp [jsUndef]
    rfl
  refine ⟨hname, ?_⟩
  intro spec hspec
  have hguard : ¬(((str "@").isPrefixOf q ∧ (jsSplit '@' q).length = 2)
      ∨ (jsSplit '@' q).length = 1) := by
    intro hg
    rcases hg with ⟨_, hl2⟩ | hl1
    · omega
    · omega
  rw [getDependencyAndVersion_else q hguard] at hspec
  cases hdec : decodeURIComponent (replaceFirst q (getDependencyName q ++ ['@']) []) with
  | none => rw [hdec] at hspec; exact absurd hspec (by simp)
  | some a =>
    rw [hdec] at hspec
    simp only [Option.map_some', Option.some.injEq] at hspec
    rw [← hspec]
    exact hname

/-- C9 (witness): the theorem applied to the concrete query `@foo@1.0`. -/
theorem C9_scoped_no_slash_undefined_witness :
    getDependencyName (str "@foo@1.0") = removeVersion (str "@foo@1.0") ++ str "/undefined"
      ∧ ∀ spec, getDependencyAndVersion (str "@foo@1.0") = some spec →
          spec.1 = removeVersion (str "@foo@1.0") ++ str "/undefined" :=
  C9_scoped_no_slash_undefined (str "@foo@1.0") (by decide) (by decide) (by decide)

/-! ## Claims C7 and C8: blacklist short-circuit and the error envelope -/

/-- C7: a query whose parsed dependency name is blacklisted makes
`downloadDependencyTypings` return the empty mapping as a success, with no
shell command executed (hence no staging directory created) and no cleanup
performed — for every environment, hash function and random suffix. -/
theorem C7_blacklist_short_circuits (world : InstallWorld) (hashSum : Str → Str)
    (rand : Nat) (depQuery dep ver : Str)
    (hparse : getDependencyAndVersion depQuery = some (dep, ver))
    (hbl : dep ∈ BLACKLISTED_DEPENDENCIES) :
    downloadDependencyTypings world hashSum rand depQuery = (.ok [], [], []) := by
  unfold downloadDependencyTypings
  rw [hparse]
  simp [List.contains, hbl]

/-- C7 (witness): the blacklisted query `react-scripts` under a concrete
environment. -/
theorem C7_blacklist_short_circuits_witness :
    downloadDependencyTypings trivialWorld (fun _ => []) 0 (str "react-scripts")
      = (.ok [], [], []) :=
  C7_blacklist_short_circuits trivialWorld (fun _ => []) 0 (str "react-scripts")
    (str "react-scripts") (str "latest") (by decide) (by decide)

/-- C8: whenever a request fails (missing, empty or array `depQuery`, or a
thrown error out of `downloadDependencyTypings` — installer failure or any
fault during extraction), the handler responds with status 422 and the error
envelope `stringifyError e`, whose `files` field is the empty object; no
partial success is returned. -/
theorem C8_error_envelope (world : InstallWorld) (hashSum : Str → Str) (rand fuel : Nat)
    (req : JSRequest) (h : requestFails world hashSum rand req) :
    ∃ e hdrs, handler world hashSum rand fuel req = some ⟨422, hdrs, stringifyError e⟩ := by
  rcases h with h0 | h0 | ⟨a, h0⟩ | ⟨s, e, t, c, h0, hs, hdl⟩
  · refine ⟨⟨str "Please provide a dependency", none⟩, [], ?_⟩
    unfold handler
    rw [h0]
    rfl
  · refine ⟨⟨str "Please provide a dependency", none⟩, [], ?_⟩
    unfold handler
    rw [h0]
    simp [errorResponse]
  · refine ⟨⟨str "Dependency should not be an array", none⟩, [], ?_⟩
    unfold handler
    rw [h0]
    rfl
  · refine ⟨e, [contentTypeHeader, corsHeader], ?_⟩
    unfold handler
    rw [h0]
    simp [hs, hdl, errorResponse]

/-- C8 (witness): a request with no `depQuery` parameter. -/
theorem C8_error_envelope_witness :
    ∃ e hdrs, handler trivialWorld (fun _ => []) 0 0 ⟨none⟩
      = some ⟨422, hdrs, stringifyError e⟩ :=
  C8_error_envelope trivialWorld (fun _ => []) 0 0 ⟨none⟩ (Or.inl rfl)

end TypeFetcher
